import Mathlib

/-
Verification development for the ConcordiaSync schedule-normalization and
calendar-CSV pipeline.  The definitions below are a shallow embedding of
src/backend/services/courseService.js and
src/backend/services/scheduleService.js.  JavaScript Date values are
modelled at day granularity as natural numbers counting days from the
civil date 0000-03-01 (proleptic Gregorian), with jsDow giving the
JavaScript Date.getDay() weekday (0 = Sunday .. 6 = Saturday).  Strings
are Lean strings; JavaScript regular-expression matching is embedded as
deterministic character-list parsers equivalent to the anchored patterns
in the source.
-/

/-- JavaScript String.prototype.trim modelled on whitespace characters:
drop whitespace from both ends. -/
def trimStr (s : String) : String :=
  String.mk (((s.data.dropWhile Char.isWhitespace).reverse.dropWhile Char.isWhitespace).reverse)

/-- JavaScript String.prototype.toUpperCase on the ASCII range. -/
def upperStr (s : String) : String := String.mk (s.data.map Char.toUpper)

/-- Numeric value of an ASCII digit character, as used by parseInt on a
single digit. -/
def digitVal (c : Char) : Nat := c.toNat - '0'.toNat

/-- Models the JavaScript idiom n.toString().padStart(2, the zero digit):
numbers below 10 get one leading zero, larger numbers are unchanged. -/
def pad2 (n : Nat) : String := if n < 10 then "0" ++ toString n else toString n

/-- Hour component of the anchored time regex in sanitizeTime
(courseService.js line 285): one or two digits followed by a colon,
greedy with backtracking, which is equivalent to this deterministic
two-then-one digit attempt.  Returns the hour value and the remaining
characters after the colon. -/
def splitHour : List Char → Option (Nat × List Char)
  | a :: b :: rest =>
    if a.isDigit then
      if b.isDigit then
        match rest with
        | ':' :: rest2 => some (10 * digitVal a + digitVal b, rest2)
        | _ => none
      else if b = ':' then some (digitVal a, rest)
      else none
    else none
  | _ => none

/-- Minute component of the time regex: exactly two digits. -/
def splitMin : List Char → Option (Nat × List Char)
  | m1 :: m2 :: rest =>
    if m1.isDigit && m2.isDigit then some (10 * digitVal m1 + digitVal m2, rest) else none
  | _ => none

/-- Optional seconds component of the time regex: a colon followed by
exactly two digits, ignored; a colon not followed by two digits makes the
whole anchored match fail. -/
def dropSeconds : List Char → Option (List Char)
  | ':' :: s1 :: s2 :: rest => if s1.isDigit && s2.isDigit then some rest else none
  | ':' :: _ => none
  | rest => some rest

/-- Optional case-insensitive AM/PM suffix preceded by optional
whitespace, anchored to the end of the string.  Returns some none when no
period is present (end of input), some (some false) for AM, some (some
true) for PM, and none when trailing characters prevent the anchored
regex from matching. -/
def parsePeriod (cs : List Char) : Option (Option Bool) :=
  match cs with
  | [] => some none
  | _ =>
    match cs.dropWhile Char.isWhitespace with
    | [p, m] =>
      if m = 'M' ∨ m = 'm' then
        if p = 'A' ∨ p = 'a' then some (some false)
        else if p = 'P' ∨ p = 'p' then some (some true)
        else none
      else none
    | _ => none

/-- Embedding of CourseService.sanitizeTime (courseService.js lines
281-300): trim, match the anchored pattern hour colon minutes optional
seconds optional AM/PM, convert 12-hour to 24-hour (PM adds 12 unless the
hour is 12, AM maps hour 12 to 0), and re-render as two padded fields
joined by a colon.  Falsy input (the empty string models null, undefined
and the empty string) yields none. -/
def sanitizeTime (timeStr : String) : Option String :=
  if timeStr = "" then none else
  let cleaned := trimStr timeStr
  match splitHour cleaned.data with
  | none => none
  | some (hour, rest) =>
    match splitMin rest with
    | none => none
    | some (minute, rest2) =>
      match dropSeconds rest2 with
      | none => none
      | some rest3 =>
        match parsePeriod rest3 with
        | none => none
        | some period =>
          let hour2 := match period with
            | some true => if hour ≠ 12 then hour + 12 else hour
            | some false => if hour = 12 then 0 else hour
            | none => hour
          some (pad2 hour2 ++ ":" ++ pad2 minute)

/-- Embedding of CourseService.convertTimeFormat (courseService.js lines
158-169): a string of exactly four digits is split as HHMM into HH:MM;
anything else falls through to sanitizeTime. -/
def convertTimeFormat (timeStr : String) : Option String :=
  if timeStr = "" then none
  else if timeStr.length = 4 && timeStr.data.all Char.isDigit then
    some (String.mk (timeStr.data.take 2) ++ ":" ++ String.mk (timeStr.data.drop 2))
  else sanitizeTime timeStr

/-- Alternatives of the day regex in CourseService.parseDays
(courseService.js line 247), in the alternation order of the source:
two-letter codes, then single letters, then full names. -/
def dayTokens : List String :=
  ["Mo", "Tu", "We", "Th", "Fr", "Sa", "Su", "M", "T", "W", "R", "F", "S", "U",
   "Monday", "Tuesday", "Wednesday", "Thursday", "Friday", "Saturday", "Sunday"]

/-- Case-sensitive token table of CourseService.parseDays
(courseService.js lines 236-244). -/
def dayMap : List (String × Nat) :=
  [("M", 0), ("Mo", 0), ("Monday", 0),
   ("T", 1), ("Tu", 1), ("Tuesday", 1),
   ("W", 2), ("We", 2), ("Wednesday", 2),
   ("R", 3), ("Th", 3), ("Thursday", 3),
   ("F", 4), ("Fr", 4), ("Friday", 4),
   ("S", 5), ("Sa", 5), ("Saturday", 5),
   ("U", 6), ("Su", 6), ("Sunday", 6)]

/-- Case-insensitive literal match of a token against the head of the
input, returning the matched characters in their original casing together
with the rest of the input, as the i flag on the day regex does. -/
def matchCI : List Char → List Char → Option (List Char × List Char)
  | [], cs => some ([], cs)
  | _ :: _, [] => none
  | t :: ts, c :: cs =>
    if c.toLower = t.toLower then
      match matchCI ts cs with
      | some (m, r) => some (c :: m, r)
      | none => none
    else none

/-- First day token (in alternation order) matching at the current
position, as the regex engine resolves the alternation. -/
def findTok (cs : List Char) : Option (List Char × List Char) :=
  dayTokens.findSome? (fun t => matchCI t.data cs)

/-- Case-sensitive lookup of matched text in the day table, modelling the
property access dayMap of match 1 in the source. -/
def lookupDay (s : String) : Option Nat :=
  (dayMap.find? (fun p => p.1 == s)).map (fun p => p.2)

/-- Scan loop of CourseService.parseDays: repeated global regex exec.  At
each position the first matching alternative is consumed; its matched
text is looked up case-sensitively, pushed when found and not already
present; positions without a match are skipped one character at a time.
Fuel is the length of the remaining input, which bounds the number of
steps since every step consumes at least one character. -/
def scanDays : Nat → List Char → List Nat → List Nat
  | 0, _, acc => acc
  | _ + 1, [], acc => acc
  | fuel + 1, c :: cs, acc =>
    match findTok (c :: cs) with
    | some (m, rest) =>
      let acc2 := match lookupDay (String.mk m) with
        | some v => if acc.contains v then acc else acc ++ [v]
        | none => acc
      scanDays fuel rest acc2
    | none => scanDays fuel cs acc

/-- Whether the day regex matches anywhere in the input, i.e. whether the
exec loop of parseDays ever fires. -/
def hasTokenMatch : List Char → Bool
  | [] => false
  | c :: cs => (findTok (c :: cs)).isSome || hasTokenMatch cs

/-- Embedding of CourseService.parseDays (courseService.js lines 233-258).
The final JavaScript days.sort() converts elements to strings and sorts
lexicographically, which on the single-digit values 0..6 coincides with
the numeric order used here. -/
def parseDays (dayString : String) : List Nat :=
  if dayString = "" then []
  else List.insertionSort (· ≤ ·) (scanDays dayString.data.length dayString.data [])

/-- Control characters stripped by CourseService.sanitizeString: the C0
and C1 ranges of its character-class regex. -/
def isCtl (c : Char) : Bool :=
  c.toNat ≤ 0x1F || (0x7F ≤ c.toNat && c.toNat ≤ 0x9F)

/-- Embedding of CourseService.sanitizeString (courseService.js lines
274-279): trim, strip C0/C1 control characters, truncate to 500
characters.  The empty string models all falsy inputs. -/
def sanitizeString (str : String) : String :=
  if str = "" then ""
  else String.mk (((trimStr str).data.filter (fun c => !isCtl c)).take 500)

/-- Collapse every run of whitespace into a single space, the second
replace of ScheduleService.sanitizeCsvField.  Fuel is the length of the
remaining input; every step consumes at least one character. -/
def collapseWsAux : Nat → List Char → List Char
  | 0, _ => []
  | _ + 1, [] => []
  | fuel + 1, c :: cs =>
    if c.isWhitespace then ' ' :: collapseWsAux fuel (cs.dropWhile Char.isWhitespace)
    else c :: collapseWsAux fuel cs

/-- Collapse whitespace runs, entered with adequate fuel. -/
def collapseWs (cs : List Char) : List Char := collapseWsAux cs.length cs

/-- Embedding of ScheduleService.sanitizeCsvField (scheduleService.js
lines 181-187): trim, replace carriage returns, newlines and tabs by
spaces, collapse whitespace runs to single spaces, truncate to 255
characters.  The empty string models all falsy inputs. -/
def sanitizeCsvField (text : String) : String :=
  if text = "" then ""
  else
    let step1 := (trimStr text).data.map (fun c =>
      if c = '\r' ∨ c = '\n' ∨ c = '\t' then ' ' else c)
    String.mk ((collapseWs step1).take 255)

/-- Day number of a civil (year, month, day) date counted from
0000-03-01 in the proleptic Gregorian calendar, valid for all dates from
year 1 on; months are 1-based as reported by getMonth() + 1. -/
def daysFromCivil (y m d : Nat) : Nat :=
  let y2 := if m ≤ 2 then y - 1 else y
  let era := y2 / 400
  let yoe := y2 % 400
  let mp := (m + 9) % 12
  let doy := (153 * mp + 2) / 5 + (d - 1)
  let doe := yoe * 365 + yoe / 4 - yoe / 100 + doy
  era * 146097 + doe

/-- Inverse of daysFromCivil: the civil (year, month, day) of a day
number. -/
def civilFromDays (z : Nat) : Nat × Nat × Nat :=
  let era := z / 146097
  let doe := z % 146097
  let yoe := (doe - doe / 1460 + doe / 36524 - doe / 146096) / 365
  let y := yoe + era * 400
  let doy := doe - (365 * yoe + yoe / 4 - yoe / 100)
  let mp := (5 * doy + 2) / 153
  let d := doy - (153 * mp + 2) / 5 + 1
  let m := if mp < 10 then mp + 3 else mp - 9
  (if m ≤ 2 then y + 1 else y, m, d)

/-- JavaScript Date.getDay() of a day number: 0 = Sunday .. 6 = Saturday.
Day 0 of this model, 0000-03-01, is a Wednesday. -/
def jsDow (z : Nat) : Nat := (z + 3) % 7

/-- Embedding of ScheduleService.formatDate (scheduleService.js lines
174-179): MM/DD/YYYY with two-padded month and day. -/
def formatDate (z : Nat) : String :=
  let c := civilFromDays z
  pad2 c.2.1 ++ "/" ++ pad2 c.2.2 ++ "/" ++ toString c.1

/-- Embedding of ScheduleService.getFirstWeekdayOccurrence
(scheduleService.js lines 152-157): advance the start date by
(targetDay - getDay() + 7) mod 7 days.  The Nat expression below equals
the JavaScript value for every targetDay, because jsDow is below 7. -/
def getFirstWeekdayOccurrence (startDate targetDay : Nat) : Nat :=
  startDate + (targetDay + 7 - jsDow startDate) % 7

/-- Hardcoded default break ranges of ScheduleService.isBreakWeek
(scheduleService.js lines 160-165); JavaScript months are 0-based, so
new Date(2024, 10, 25) is 2024-11-25. -/
def defaultBreaks : List (Nat × Nat) :=
  [(daysFromCivil 2024 11 25, daysFromCivil 2024 11 29),
   (daysFromCivil 2024 12 23, daysFromCivil 2024 12 31),
   (daysFromCivil 2025 3 1, daysFromCivil 2025 3 7),
   (daysFromCivil 2025 10 14, daysFromCivil 2025 10 18)]

/-- Embedding of ScheduleService.isBreakWeek (scheduleService.js lines
159-172): the date lies in some inclusive range of the concatenation of
the default breaks and the caller-supplied breaks. -/
def isBreakWeek (date : Nat) (customBreaks : List (Nat × Nat)) : Bool :=
  (defaultBreaks ++ customBreaks).any (fun b => decide (b.1 ≤ date) && decide (date ≤ b.2))

/-- Dates visited by the weekly stepping loop of generateCSV: the current
date and then fixed 7-day increments while the date does not exceed the
semester end date.  Fuel bounds the number of loop iterations. -/
def stepDatesAux : Nat → Nat → Nat → List Nat
  | 0, _, _ => []
  | fuel + 1, current, endDate =>
    if current ≤ endDate then current :: stepDatesAux fuel (current + 7) endDate else []

/-- Stepping loop entered with adequate fuel: one unit per remaining day
suffices since every iteration advances by 7 days. -/
def stepDates (current endDate : Nat) : List Nat :=
  stepDatesAux (endDate + 1 - current) current endDate

/-- Dates actually emitted by the loop of generateCSV: stepped dates that
are not inside a break week.  The stepping continues past suppressed
dates exactly as in the source, where the increment is outside the break
test. -/
def emitDatesAux (breaks : List (Nat × Nat)) : Nat → Nat → Nat → List Nat
  | 0, _, _ => []
  | fuel + 1, current, endDate =>
    if current ≤ endDate then
      (if isBreakWeek current breaks then [] else [current])
        ++ emitDatesAux breaks fuel (current + 7) endDate
    else []

/-- Emission loop entered with adequate fuel. -/
def emitDates (current endDate : Nat) (breaks : List (Nat × Nat)) : List Nat :=
  emitDatesAux breaks (endDate + 1 - current) current endDate

/-- One element of the scheduleData array consumed by
ScheduleService.generateCSV; the fields read by generateCSV are subject,
day, startTime, endTime, description and location (the events produced by
convertToScheduleEvents carry further fields, none of which generateCSV
reads). -/
structure ScheduleEvent where
  subject : String
  day : Nat
  startTime : String
  endTime : String
  location : String
  description : String
deriving DecidableEq, Repr

/-- Semester window already resolved by getSemesterDates: start and end
day numbers plus the caller-supplied break ranges (semesterInfo.breaks,
empty when the caller supplies none). -/
structure SemesterInfo where
  startDate : Nat
  endDate : Nat
  breaks : List (Nat × Nat)
deriving DecidableEq, Repr

/-- One row object pushed by generateCSV (scheduleService.js lines
88-98), in header order; allDay and priv model the All Day Event and
Private columns. -/
structure CsvRow where
  subject : String
  startDate : String
  startTime : String
  endDate : String
  endTime : String
  allDay : String
  description : String
  location : String
  priv : String
deriving DecidableEq, Repr

/-- The row pushed for one occurrence date of one course, exactly the
object literal of scheduleService.js lines 88-98. -/
def mkRow (course : ScheduleEvent) (date : Nat) : CsvRow :=
  { subject := sanitizeCsvField course.subject
    startDate := formatDate date
    startTime := course.startTime
    endDate := formatDate date
    endTime := course.endTime
    allDay := "False"
    description := sanitizeCsvField course.description
    location := sanitizeCsvField course.location
    priv := "False" }

/-- Rows produced by the while loop of generateCSV for a single course:
step weekly from the current date, pushing a row for every date not in a
break week. -/
def emitRowsAux (course : ScheduleEvent) (breaks : List (Nat × Nat)) :
    Nat → Nat → Nat → List CsvRow
  | 0, _, _ => []
  | fuel + 1, current, endDate =>
    if current ≤ endDate then
      (if isBreakWeek current breaks then [] else [mkRow course current])
        ++ emitRowsAux course breaks fuel (current + 7) endDate
    else []

/-- Row loop entered with adequate fuel. -/
def emitRows (course : ScheduleEvent) (current endDate : Nat)
    (breaks : List (Nat × Nat)) : List CsvRow :=
  emitRowsAux course breaks (endDate + 1 - current) current endDate

/-- The events array accumulated by generateCSV over all courses: for each
course the loop starts at the first weekday occurrence of course.day on
or after the semester start. -/
def generateCSVEvents (scheduleData : List ScheduleEvent) (info : SemesterInfo) : List CsvRow :=
  scheduleData.flatMap (fun course =>
    emitRows course (getFirstWeekdayOccurrence info.startDate course.day)
      info.endDate info.breaks)

/-- Header list of generateCSV (scheduleService.js lines 74-77). -/
def csvHeaders : List String :=
  ["Subject", "Start Date", "Start Time", "End Date", "End Time",
   "All Day Event", "Description", "Location", "Private"]

/-- Field values of a row in header order, as the source maps the headers
over the event object. -/
def rowFields (e : CsvRow) : List String :=
  [e.subject, e.startDate, e.startTime, e.endDate, e.endTime,
   e.allDay, e.description, e.location, e.priv]

/-- Doubling of literal double quotes, the replace of
scheduleService.js line 107. -/
def escQuotes (s : String) : String :=
  String.mk (s.data.flatMap (fun c => if c = '"' then ['"', '"'] else [c]))

/-- Wrapping of one field value in double quotes with interior quotes
doubled. -/
def csvQuote (s : String) : String := "\"" ++ escQuotes s ++ "\""

/-- Serialization of one event row: quoted field values joined by
commas. -/
def rowString (e : CsvRow) : String :=
  String.intercalate "," ((rowFields e).map csvQuote)

/-- Embedding of ScheduleService.generateCSV (scheduleService.js lines
73-112) after getSemesterDates resolution: the header line followed by
one serialized row per emitted occurrence, joined by newlines. -/
def generateCSV (scheduleData : List ScheduleEvent) (info : SemesterInfo) : String :=
  String.intercalate "\n"
    (String.intercalate "," csvHeaders
      :: (generateCSVEvents scheduleData info).map rowString)

/-- One raw row of the flat schedule feed consumed by
CourseService.processScheduleResponse.  Day flags and times are optional
strings as delivered by the feed; instructorName stands for the already
joined first and last name of the first instructor, and the three
counters stand for the parseInt results on the capacity fields. -/
structure RawRow where
  sectionLabel : String
  componentCode : String
  modays : Option String
  tuesdays : Option String
  wednesdays : Option String
  thursdays : Option String
  fridays : Option String
  saturdays : Option String
  sundays : Option String
  classStartTime : Option String
  classEndTime : Option String
  locationCode : Option String
  instructorName : String
  classCapacity : Nat
  enrollmentTotal : Nat
  waitlistTotal : Nat
deriving DecidableEq, Repr

/-- Canonical Meeting record built by processScheduleResponse. -/
structure Meeting where
  days : List Nat
  startTime : Option String
  endTime : Option String
  location : String
  mtype : String
deriving DecidableEq, Repr

/-- Canonical Section record built by processScheduleResponse. -/
structure Sect where
  sectionLabel : String
  stype : String
  instructor : String
  location : String
  schedule : List Meeting
  capacity : Nat
  enrolled : Nat
  waitlist : Nat
deriving DecidableEq, Repr

/-- JavaScript truthiness of an optional string: present and non-empty. -/
def truthy (o : Option String) : Bool :=
  match o with
  | some s => s ≠ ""
  | none => false

/-- Fixed code table of CourseService.normalizeClassType
(courseService.js lines 263-269). -/
def typeMap : List (String × String) :=
  [("LEC", "Lecture"), ("LECTURE", "Lecture"),
   ("LAB", "Laboratory"), ("LABORATORY", "Laboratory"),
   ("TUT", "Tutorial"), ("TUTORIAL", "Tutorial"),
   ("SEM", "Seminar"), ("SEMINAR", "Seminar"),
   ("WOR", "Workshop"), ("WORKSHOP", "Workshop")]

/-- Embedding of CourseService.normalizeClassType (courseService.js lines
260-272): case-insensitive table lookup defaulting to Lecture. -/
def normalizeClassType (t : String) : String :=
  if t = "" then "Lecture"
  else
    match (typeMap.find? (fun p => p.1 == upperStr t)).map (fun p => p.2) with
    | some v => v
    | none => "Lecture"

/-- Embedding of CourseService.extractDaysFromSchedule (courseService.js
lines 146-156): push the Monday-first index 0..6 for every day flag that
is exactly the string Y. -/
def extractDaysFromSchedule (r : RawRow) : List Nat :=
  (if r.modays = some "Y" then [0] else [])
    ++ (if r.tuesdays = some "Y" then [1] else [])
    ++ (if r.wednesdays = some "Y" then [2] else [])
    ++ (if r.thursdays = some "Y" then [3] else [])
    ++ (if r.fridays = some "Y" then [4] else [])
    ++ (if r.saturdays = some "Y" then [5] else [])
    ++ (if r.sundays = some "Y" then [6] else [])

/-- convertTimeFormat lifted to the optional feed value; absent values
are falsy and yield null immediately. -/
def convertTimeFormatOpt (o : Option String) : Option String :=
  match o with
  | none => none
  | some s => convertTimeFormat s

/-- Truthiness gate of courseService.js line 128: at least one of the
seven day-flag fields is truthy (note that the string N is truthy). -/
def anyDayFlag (r : RawRow) : Bool :=
  truthy r.modays || truthy r.tuesdays || truthy r.wednesdays || truthy r.thursdays
    || truthy r.fridays || truthy r.saturdays || truthy r.sundays

/-- The meeting object built for one raw row (courseService.js lines
129-135). -/
def mkMeeting (r : RawRow) : Meeting :=
  { days := extractDaysFromSchedule r
    startTime := convertTimeFormatOpt r.classStartTime
    endTime := convertTimeFormatOpt r.classEndTime
    location := sanitizeString (r.locationCode.getD "")
    mtype := normalizeClassType r.componentCode }

/-- The fresh section object stored in the map on first sight of a key
(courseService.js lines 114-123). -/
def initSect (r : RawRow) : Sect :=
  { sectionLabel := sanitizeString r.sectionLabel
    stype := normalizeClassType r.componentCode
    instructor := sanitizeString r.instructorName
    location := sanitizeString (r.locationCode.getD "")
    schedule := []
    capacity := r.classCapacity
    enrolled := r.enrollmentTotal
    waitlist := r.waitlistTotal }

/-- Grouping key of courseService.js line 111: the template literal
joining the raw section label and component code with a hyphen. -/
def sectionKey (r : RawRow) : String := r.sectionLabel ++ "-" ++ r.componentCode

/-- Whether a raw row contributes a meeting to its section: the day-flag
gate passes, the extracted day set is non-empty and both times parse
(courseService.js lines 128 and 137). -/
def contributes (r : RawRow) : Bool :=
  anyDayFlag r && !(extractDaysFromSchedule r).isEmpty
    && (convertTimeFormatOpt r.classStartTime).isSome
    && (convertTimeFormatOpt r.classEndTime).isSome

/-- Whether the insertion-ordered map already holds a key. -/
def hasKey (m : List (String × Sect)) (k : String) : Bool :=
  m.any (fun p => p.1 == k)

/-- Push a meeting onto the schedule of the section stored under a key,
modelling the in-place section.schedule.push of the source. -/
def pushMeeting (m : List (String × Sect)) (k : String) (mt : Meeting) :
    List (String × Sect) :=
  m.map (fun p => if p.1 == k then (p.1, { p.2 with schedule := p.2.schedule ++ [mt] }) else p)

/-- Processing of one raw row against the insertion-ordered sections map
(body of the forEach of courseService.js lines 110-141): create the entry
on first sight of the key, then append the row's meeting when the row
contributes one. -/
def processRow (m : List (String × Sect)) (r : RawRow) : List (String × Sect) :=
  let m1 := if hasKey m (sectionKey r) then m else m ++ [(sectionKey r, initSect r)]
  if contributes r then pushMeeting m1 (sectionKey r) (mkMeeting r) else m1

/-- Embedding of CourseService.processScheduleResponse (courseService.js
lines 107-144): fold the rows through the map, take the values in
insertion order, and keep only sections with a non-empty schedule. -/
def processScheduleResponse (rows : List RawRow) : List Sect :=
  (((rows.foldl processRow []).map (fun p => p.2)).filter
    (fun s => !s.schedule.isEmpty))

/-- Meetings contributed to a given key by a list of raw rows, in row
order. -/
def meetingsOf (k : String) (rows : List RawRow) : List Meeting :=
  (rows.filter (fun r => sectionKey r == k && contributes r)).map mkMeeting

/-- Embedding of ScheduleService.generateSchedule (scheduleService.js
lines 4-19).  The per-course work getCourseScheduleData is asynchronous
and performs network calls, so it is abstracted as a function from a
course record to either a thrown error or a list of events; the loop
appends the events of each course whose processing returns a non-empty
list and swallows (logs) errors, continuing with the remaining
courses. -/
def generateSchedule {α β : Type} (fetch : α → Except String (List β))
    (courseData : List α) : List β :=
  courseData.foldl (fun acc c =>
    match fetch c with
    | Except.ok evs => if evs.length > 0 then acc ++ evs else acc
    | Except.error _ => acc) []

/-- Definitions for concrete witness inputs: a raw feed row for section A
lecture with a Monday flag and parseable times. -/
def c4row1 : RawRow :=
  { sectionLabel := "A"
    componentCode := "LEC"
    modays := some "Y"
    tuesdays := none
    wednesdays := none
    thursdays := none
    fridays := none
    saturdays := none
    sundays := none
    classStartTime := some "1000"
    classEndTime := some "1100"
    locationCode := some "H-501"
    instructorName := "Jane Roe"
    classCapacity := 90
    enrollmentTotal := 80
    waitlistTotal := 2 }

/-- A second raw feed row with the same section and component code as
c4row1, carrying a Wednesday meeting in 12-hour times. -/
def c4row2 : RawRow :=
  { c4row1 with
    wednesdays := some "Y"
    modays := none
    classStartTime := some "2:30 PM"
    classEndTime := some "3:45 PM" }

/-- The canonical section obtained by merging c4row1 and c4row2: one
entry whose schedule accumulates both meetings. -/
def c4sect : Sect :=
  { sectionLabel := "A"
    stype := "Lecture"
    instructor := "Jane Roe"
    location := "H-501"
    schedule :=
      [{ days := [0], startTime := some "10:00", endTime := some "11:00",
         location := "H-501", mtype := "Lecture" },
       { days := [2], startTime := some "14:30", endTime := some "15:45",
         location := "H-501", mtype := "Lecture" }]
    capacity := 90
    enrolled := 80
    waitlist := 2 }

/-- Invariant of the sections map maintained by processScheduleResponse
while folding over the raw rows: keys are pairwise distinct, every stored
section's schedule holds exactly the meetings contributed to its key by
the rows processed so far, and a key is present exactly when some
processed row bears it. -/
def mapInv (m : List (String × Sect)) (rows : List RawRow) : Prop :=
  ((m.map Prod.fst).Nodup)
  ∧ (∀ p ∈ m, p.2.schedule = meetingsOf p.1 rows)
  ∧ (∀ k, hasKey m k = true ↔ ∃ r ∈ rows, sectionKey r = k)

/- Lemmas about the fuel-based loop embeddings.  Fuel only bounds the
iteration count; with adequate fuel every loop is insensitive to the
exact amount, which the following lemmas record. -/

theorem stepDatesAux_fuel_irrel :
    ∀ n m current endDate, endDate + 1 - current ≤ n → endDate + 1 - current ≤ m →
      stepDatesAux n current endDate = stepDatesAux m current endDate := by
  intro n
  induction n with
  | zero =>
    intro m c e h1 _
    have hc : ¬ c ≤ e := by omega
    cases m <;> simp [stepDatesAux, hc]
  | succ n ih =>
    intro m c e h1 h2
    by_cases hc : c ≤ e
    · obtain ⟨m2, rfl⟩ : ∃ m2, m = m2 + 1 := ⟨m - 1, by omega⟩
      simp only [stepDatesAux, if_pos hc]
      rw [ih m2 (c + 7) e (by omega) (by omega)]
    · cases m <;> simp [stepDatesAux, hc]

theorem stepDates_unfold (c e : Nat) :
    stepDates c e = if c ≤ e then c :: stepDates (c + 7) e else [] := by
  by_cases hc : c ≤ e
  · have h1 : e + 1 - c = (e - c) + 1 := by omega
    simp only [stepDates, h1, stepDatesAux, if_pos hc]
    rw [stepDatesAux_fuel_irrel (e - c) (e + 1 - (c + 7)) (c + 7) e (by omega) (by omega)]
  · have h0 : e + 1 - c = 0 := by omega
    simp [stepDates, h0, stepDatesAux, hc]

theorem emitDatesAux_eq_filter (breaks : List (Nat × Nat)) :
    ∀ fuel current endDate,
      emitDatesAux breaks fuel current endDate
        = (stepDatesAux fuel current endDate).filter (fun d => !isBreakWeek d breaks) := by
  intro fuel
  induction fuel with
  | zero => intro c e; rfl
  | succ n ih =>
    intro c e
    by_cases hc : c ≤ e
    · simp only [emitDatesAux, stepDatesAux, if_pos hc, List.filter_cons]
      by_cases hb : isBreakWeek c breaks <;> simp [hb, ih]
    · simp [emitDatesAux, stepDatesAux, hc]

theorem emitDates_eq_filter (c e : Nat) (breaks : List (Nat × Nat)) :
    emitDates c e breaks = (stepDates c e).filter (fun d => !isBreakWeek d breaks) :=
  emitDatesAux_eq_filter breaks (e + 1 - c) c e

theorem emitRowsAux_eq_map (course : ScheduleEvent) (breaks : List (Nat × Nat)) :
    ∀ fuel current endDate,
      emitRowsAux course breaks fuel current endDate
        = (emitDatesAux breaks fuel current endDate).map (mkRow course) := by
  intro fuel
  induction fuel with
  | zero => intro c e; rfl
  | succ n ih =>
    intro c e
    by_cases hc : c ≤ e
    · simp only [emitRowsAux, emitDatesAux, if_pos hc, List.map_append]
      by_cases hb : isBreakWeek c breaks <;> simp [hb, ih]
    · simp [emitRowsAux, emitDatesAux, hc]

theorem emitRows_eq_map (course : ScheduleEvent) (c e : Nat) (breaks : List (Nat × Nat)) :
    emitRows course c e breaks = (emitDates c e breaks).map (mkRow course) :=
  emitRowsAux_eq_map course breaks (e + 1 - c) c e

theorem mem_stepDatesAux_add7 :
    ∀ fuel current endDate, endDate + 1 - current ≤ fuel →
      ∀ d, d ∈ stepDatesAux fuel current endDate → d + 7 ≤ endDate →
        d + 7 ∈ stepDatesAux fuel current endDate := by
  intro fuel
  induction fuel with
  | zero => intro c e _ d hd; simp [stepDatesAux] at hd
  | succ n ih =>
    intro c e hfuel d hd hd7
    by_cases hc : c ≤ e
    · simp only [stepDatesAux, if_pos hc] at hd ⊢
      rcases List.mem_cons.mp hd with rfl | hmem
      · apply List.mem_cons_of_mem
        obtain ⟨n2, rfl⟩ : ∃ n2, n = n2 + 1 := ⟨n - 1, by omega⟩
        simp [stepDatesAux, hd7]
      · exact List.mem_cons_of_mem _ (ih (c + 7) e (by omega) d hmem hd7)
    · simp [stepDatesAux, hc] at hd

theorem mem_stepDates_add7 {c e d : Nat} (hd : d ∈ stepDates c e) (h7 : d + 7 ≤ e) :
    d + 7 ∈ stepDates c e :=
  mem_stepDatesAux_add7 (e + 1 - c) c e (Nat.le_refl _) d hd h7

/-- Claim C1.  The claim states that the materializer's first emitted
occurrence for meeting weekday d (0 = Monday .. 6 = Sunday) is the first
calendar date on or after the semester start whose weekday equals d, so
that a Monday meeting with Monday start date 2024-09-02 starts exactly
there.  The code disagrees: extractDaysFromSchedule produces Monday-first
indices, but getFirstWeekdayOccurrence compares them with the
Sunday-first Date.getDay() value, so a Monday-flagged meeting (day index
0) with Monday start 2024-09-02 is first materialized on Sunday
2024-09-08, six days late and on the wrong weekday, and with Tuesday
start 2024-09-03 the first occurrence comes five days later, not six.
This theorem evaluates the embedded code at those inputs. -/
theorem c1_day_convention_mismatch :
    jsDow (daysFromCivil 2024 9 2) = 1
    ∧ jsDow (daysFromCivil 2024 9 3) = 2
    ∧ jsDow (daysFromCivil 2024 9 8) = 0
    ∧ extractDaysFromSchedule c4row1 = [0]
    ∧ getFirstWeekdayOccurrence (daysFromCivil 2024 9 2) 0 = daysFromCivil 2024 9 2 + 6
    ∧ getFirstWeekdayOccurrence (daysFromCivil 2024 9 3) 0 = daysFromCivil 2024 9 3 + 5
    ∧ emitDates (getFirstWeekdayOccurrence (daysFromCivil 2024 9 2) 0)
        (daysFromCivil 2024 9 30) []
        = [daysFromCivil 2024 9 8, daysFromCivil 2024 9 15,
           daysFromCivil 2024 9 22, daysFromCivil 2024 9 29] := by decide

/-- Claim C2 counterexample.  The claim says that when the caller
supplies its own breaks, the four default break ranges are not applied.
In the code isBreakWeek always concatenates the defaults with the
caller's breaks: with caller-supplied break 2025-01-06..2025-01-10, the
date 2024-12-25 lies in no caller range yet is still treated as a break
(it falls in the default Christmas range), and a Wednesday course
stepping 2024-12-18, 12-25, 01-01, 01-08, 01-15 emits only 12-18, 01-01
and 01-15. -/
theorem c2_counterexample :
    isBreakWeek (daysFromCivil 2024 12 25)
        [(daysFromCivil 2025 1 6, daysFromCivil 2025 1 10)] = true
    ∧ ¬ (daysFromCivil 2025 1 6 ≤ daysFromCivil 2024 12 25
          ∧ daysFromCivil 2024 12 25 ≤ daysFromCivil 2025 1 10)
    ∧ emitDates (daysFromCivil 2024 12 18) (daysFromCivil 2025 1 15)
        [(daysFromCivil 2025 1 6, daysFromCivil 2025 1 10)]
        = [daysFromCivil 2024 12 18, daysFromCivil 2025 1 1,
           daysFromCivil 2025 1 15] := by decide

/-- Claim C2 as amended.  Caller-supplied break ranges do suppress
occurrences, but they are added to the four default break ranges rather
than replacing them: a date is treated as a break exactly when it lies in
an inclusive default range or in an inclusive caller-supplied range,
whether or not the caller supplied any. -/
theorem c2_breaks_always_include_defaults :
    ∀ (date : Nat) (customBreaks : List (Nat × Nat)),
      isBreakWeek date customBreaks = true ↔
        ((∃ b ∈ defaultBreaks, b.1 ≤ date ∧ date ≤ b.2)
          ∨ (∃ b ∈ customBreaks, b.1 ≤ date ∧ date ≤ b.2)) := by
  intro date cb
  simp only [isBreakWeek, List.any_eq_true, List.mem_append, Bool.and_eq_true,
    decide_eq_true_eq]
  constructor
  · rintro ⟨b, hb | hb, h1, h2⟩
    · exact Or.inl ⟨b, hb, h1, h2⟩
    · exact Or.inr ⟨b, hb, h1, h2⟩
  · rintro (⟨b, hb, h1, h2⟩ | ⟨b, hb, h1, h2⟩)
    · exact ⟨b, Or.inl hb, h1, h2⟩
    · exact ⟨b, Or.inr hb, h1, h2⟩

/-- Claim C2 amended, witnessed at the default Christmas range with a
non-empty caller break list. -/
theorem c2_amended_witness :
    isBreakWeek (daysFromCivil 2024 12 25)
      [(daysFromCivil 2025 1 21, daysFromCivil 2025 1 22)] = true :=
  (c2_breaks_always_include_defaults (daysFromCivil 2024 12 25)
      [(daysFromCivil 2025 1 21, daysFromCivil 2025 1 22)]).mpr
    (Or.inl ⟨(daysFromCivil 2024 12 23, daysFromCivil 2024 12 31),
      by decide, by decide, by decide⟩)

/-- Claim C9.  The time parser performs no numeric range validation: the
colon-shaped input 99:99 has hour 99 and minute 99, yet sanitizeTime and
convertTimeFormat return the string 99:99 instead of null, and a feed row
carrying such times passes the meeting validity filter, so the
out-of-range times reach the Meeting records (and from there the CSV
output). -/
theorem c9_no_range_validation :
    convertTimeFormat "99:99" = some "99:99"
    ∧ sanitizeTime "99:99" = some "99:99"
    ∧ (processScheduleResponse
        [{ c4row1 with classStartTime := some "99:99", classEndTime := some "99:99" }]).map
          (fun s => s.schedule.map (fun m => (m.startTime, m.endTime)))
        = [[(some "99:99", some "99:99")]] := by decide

/-- Claim C10.  The day regex matches tokens case-insensitively but the
matched text is resolved through the case-sensitive lookup table, so the
lowercase input mowefr is consumed as day tokens (findTok fires) yet
every lookup misses and parseDays returns the empty list, while the
mixed-case MoWeFr yields Monday, Wednesday, Friday. -/
theorem c10_case_sensitive_lookup :
    parseDays "mowefr" = []
    ∧ parseDays "MoWeFr" = [0, 2, 4]
    ∧ (findTok "mowefr".data).isSome = true
    ∧ lookupDay "mo" = none
    ∧ lookupDay "Mo" = some 0 := by decide

/-- Claim C3.  For every event stream and semester window, an occurrence
date falling inside a configured break range (endpoints included) is
never emitted, the weekly 7-day stepping continues past it, and the
following week's occurrence is emitted when it is still inside the window
and outside every break; the rows generateCSV accumulates for a course
are exactly the emitted dates rendered through mkRow. -/
theorem c3_break_suppression_weekly_cadence :
    ∀ (course : ScheduleEvent) (info : SemesterInfo) (d : Nat),
      (∀ b ∈ info.breaks, b.1 ≤ d → d ≤ b.2 →
        d ∉ emitDates (getFirstWeekdayOccurrence info.startDate course.day)
              info.endDate info.breaks)
      ∧ (d ∈ stepDates (getFirstWeekdayOccurrence info.startDate course.day) info.endDate →
          d + 7 ≤ info.endDate → isBreakWeek (d + 7) info.breaks = false →
          (d + 7) ∈ emitDates (getFirstWeekdayOccurrence info.startDate course.day)
              info.endDate info.breaks)
      ∧ generateCSVEvents [course] info
          = (emitDates (getFirstWeekdayOccurrence info.startDate course.day)
              info.endDate info.breaks).map (mkRow course) := by
  intro course info d
  refine ⟨?_, ?_, ?_⟩
  · intro b hb h1 h2 hmem
    rw [emitDates_eq_filter] at hmem
    have hfalse := (List.mem_filter.mp hmem).2
    have htrue : isBreakWeek d info.breaks = true := by
      apply List.any_eq_true.mpr
      exact ⟨b, List.mem_append_right _ hb, by simp [h1, h2]⟩
    rw [htrue] at hfalse
    simp at hfalse
  · intro hstep h7 hb
    rw [emitDates_eq_filter]
    exact List.mem_filter.mpr ⟨mem_stepDates_add7 hstep h7, by simp [hb]⟩
  · simp [generateCSVEvents, emitRows_eq_map]

/-- Claim C3, witnessed on a Wednesday course over the window 2024-12-18
to 2025-01-15 with caller break 2025-01-06..2025-01-10: the in-break
occurrence 2025-01-08 is suppressed and the following week's occurrence
2025-01-15 is emitted. -/
theorem c3_witness :
    daysFromCivil 2025 1 8 ∉
        emitDates (getFirstWeekdayOccurrence (daysFromCivil 2024 12 18) 3)
          (daysFromCivil 2025 1 15)
          [(daysFromCivil 2025 1 6, daysFromCivil 2025 1 10)]
    ∧ daysFromCivil 2025 1 8 + 7 ∈
        emitDates (getFirstWeekdayOccurrence (daysFromCivil 2024 12 18) 3)
          (daysFromCivil 2025 1 15)
          [(daysFromCivil 2025 1 6, daysFromCivil 2025 1 10)] := by
  constructor
  · exact (c3_break_suppression_weekly_cadence
        ⟨"CS", 3, "10:00", "11:00", "H", "d"⟩
        ⟨daysFromCivil 2024 12 18, daysFromCivil 2025 1 15,
          [(daysFromCivil 2025 1 6, daysFromCivil 2025 1 10)]⟩
        (daysFromCivil 2025 1 8)).1
      (daysFromCivil 2025 1 6, daysFromCivil 2025 1 10)
      (by decide) (by decide) (by decide)
  · exact (c3_break_suppression_weekly_cadence
        ⟨"CS", 3, "10:00", "11:00", "H", "d"⟩
        ⟨daysFromCivil 2024 12 18, daysFromCivil 2025 1 15,
          [(daysFromCivil 2025 1 6, daysFromCivil 2025 1 10)]⟩
        (daysFromCivil 2025 1 8)).2.1
      (by decide) (by decide) (by decide)

/-- Claim C5.  The CSV encoder's output starts with the fixed 9-column
header line; every row serializes the nine fields in header order, each
wrapped in double quotes with interior quotes doubled; every emitted row
has Start Date equal to End Date, both produced by formatDate, whose
shape is two-padded month, slash, two-padded day, slash, year; and the
All Day Event and Private fields are always the literal string False. -/
theorem c5_csv_output_format :
    ∀ (sched : List ScheduleEvent) (info : SemesterInfo),
      generateCSV sched info
        = String.intercalate "\n"
            ("Subject,Start Date,Start Time,End Date,End Time,All Day Event,Description,Location,Private"
              :: (generateCSVEvents sched info).map rowString)
      ∧ (∀ r ∈ generateCSVEvents sched info,
          r.startDate = r.endDate
          ∧ (∃ z, r.startDate = formatDate z)
          ∧ r.allDay = "False" ∧ r.priv = "False"
          ∧ rowString r = String.intercalate ","
              ((rowFields r).map (fun v => "\"" ++ escQuotes v ++ "\"")))
      ∧ (∀ z, formatDate z
          = pad2 (civilFromDays z).2.1 ++ "/" ++ pad2 (civilFromDays z).2.2
              ++ "/" ++ toString (civilFromDays z).1)
      ∧ formatDate (daysFromCivil 2024 9 2) = "09/02/2024"
      ∧ csvQuote "He said \"hi\"" = "\"He said \"\"hi\"\"\"" := by
  intro sched info
  refine ⟨?_, ?_, fun z => rfl, by decide, by decide⟩
  · have h : String.intercalate "," csvHeaders
        = "Subject,Start Date,Start Time,End Date,End Time,All Day Event,Description,Location,Private" := by
      decide
    rw [generateCSV, h]
  · intro r hr
    rcases List.mem_flatMap.mp hr with ⟨course, _, hrc⟩
    rw [emitRows_eq_map] at hrc
    rcases List.mem_map.mp hrc with ⟨z, _, rfl⟩
    exact ⟨rfl, ⟨z, rfl⟩, rfl, rfl, rfl⟩

/-- Claim C5, witnessed on a Monday course over September 2024: the row
materialized for 2024-09-02 has equal start and end dates. -/
theorem c5_witness :
    (mkRow ⟨"COMP 248 - OOP", 1, "11:45", "13:00", "H-820", "desc"⟩
        (daysFromCivil 2024 9 2)).startDate
      = (mkRow ⟨"COMP 248 - OOP", 1, "11:45", "13:00", "H-820", "desc"⟩
        (daysFromCivil 2024 9 2)).endDate := by
  have h := (c5_csv_output_format
      [⟨"COMP 248 - OOP", 1, "11:45", "13:00", "H-820", "desc"⟩]
      ⟨daysFromCivil 2024 9 2, daysFromCivil 2024 9 30, []⟩).2.1
  exact (h _ (by decide)).1

theorem scanDays_nodup :
    ∀ fuel cs acc, acc.Nodup → (scanDays fuel cs acc).Nodup := by
  intro fuel
  induction fuel with
  | zero => intro cs acc h; exact h
  | succ n ih =>
    intro cs acc h
    match cs with
    | [] => exact h
    | c :: cs2 =>
      simp only [scanDays]
      cases hf : findTok (c :: cs2) with
      | none => exact ih cs2 acc h
      | some pr =>
        obtain ⟨m, rest⟩ := pr
        dsimp only
        apply ih
        cases hl : lookupDay (String.mk m) with
        | none => exact h
        | some v =>
          dsimp only
          by_cases hc : acc.contains v
          · simp only [hc, if_true]
            exact h
          · have hv : v ∉ acc := by simpa using hc
            simp only [hc, Bool.false_eq_true, if_false]
            rw [List.nodup_append]
            refine ⟨h, List.nodup_singleton v, ?_⟩
            intro a ha hav
            rw [List.mem_singleton] at hav
            subst hav
            exact hv ha

theorem scanDays_no_match :
    ∀ fuel cs acc, hasTokenMatch cs = false → scanDays fuel cs acc = acc := by
  intro fuel
  induction fuel with
  | zero => intro cs acc _; rfl
  | succ n ih =>
    intro cs acc h
    match cs with
    | [] => rfl
    | c :: cs2 =>
      rw [hasTokenMatch, Bool.or_eq_false_iff] at h
      have hf : findTok (c :: cs2) = none := by
        cases hx : findTok (c :: cs2) with
        | none => rfl
        | some pr => rw [hx] at h; simp at h
      simp only [scanDays, hf]
      exact ih cs2 acc h.2

/-- Claim C7.  For every input string parseDays returns a duplicate-free
list of weekday indices sorted ascending, the empty list when the day
regex never matches, and in particular MoWeFr maps to Monday, Wednesday,
Friday, TuTh to Tuesday, Thursday, and the empty string to the empty
list. -/
theorem c7_parseDays_sorted_nodup :
    (∀ s : String,
      (parseDays s).Sorted (· ≤ ·) ∧ (parseDays s).Nodup
        ∧ (hasTokenMatch s.data = false → parseDays s = []))
    ∧ parseDays "MoWeFr" = [0, 2, 4]
    ∧ parseDays "TuTh" = [1, 3]
    ∧ parseDays "" = [] := by
  refine ⟨?_, by decide, by decide, by decide⟩
  intro s
  refine ⟨?_, ?_, ?_⟩
  · rw [parseDays]
    split
    · exact List.sorted_nil
    · exact List.sorted_insertionSort _ _
  · rw [parseDays]
    split
    · exact List.nodup_nil
    · exact ((List.perm_insertionSort _ _).nodup_iff).mpr
        (scanDays_nodup _ _ [] List.nodup_nil)
  · intro h
    rw [parseDays]
    split
    · rfl
    · rw [scanDays_no_match _ _ _ h]
      rfl

/-- Claim C7, witnessed on a string in which the day regex never
matches. -/
theorem c7_witness : parseDays "xyz" = [] :=
  (c7_parseDays_sorted_nodup.1 "xyz").2.2 (by decide)

theorem generateSchedule_foldl_append {α β : Type}
    (fetch : α → Except String (List β)) :
    ∀ (l : List α) (acc : List β),
      l.foldl (fun acc c =>
        match fetch c with
        | Except.ok evs => if evs.length > 0 then acc ++ evs else acc
        | Except.error _ => acc) acc
      = acc ++ generateSchedule fetch l := by
  intro l
  induction l with
  | nil => intro acc; simp [generateSchedule]
  | cons c l ih =>
    intro acc
    simp only [List.foldl_cons, generateSchedule] at ih ⊢
    cases hf : fetch c with
    | ok evs =>
      by_cases h : evs.length > 0
      · simp only [hf, h, if_true, List.nil_append]
        rw [ih (acc ++ evs), ih evs, List.append_assoc]
      · simp only [hf, h, if_false]
        exact ih acc
    | error e =>
      simp only [hf]
      exact ih acc

/-- Claim C8.  A failure while processing one course does not abort the
batch: when the per-course processing of one course throws, the batch
result equals the concatenation of the events of the courses before and
after it, i.e. the failing course contributes zero events and every other
course's events are preserved. -/
theorem c8_per_course_failure_isolated :
    ∀ {α β : Type} (fetch : α → Except String (List β))
      (pre post : List α) (c : α) (e : String),
      fetch c = Except.error e →
      generateSchedule fetch (pre ++ c :: post)
          = generateSchedule fetch pre ++ generateSchedule fetch post
        ∧ generateSchedule fetch (pre ++ post)
          = generateSchedule fetch pre ++ generateSchedule fetch post := by
  intro α β fetch pre post c e hc
  constructor
  · rw [generateSchedule, List.foldl_append, List.foldl_cons, hc]
    exact generateSchedule_foldl_append fetch post _
  · rw [generateSchedule, List.foldl_append]
    exact generateSchedule_foldl_append fetch post _

/-- Claim C8, witnessed on a three-course batch whose middle course
fails: the surviving events are those of the first and last courses. -/
theorem c8_witness :
    generateSchedule
        (fun n => if n = 0 then Except.error "boom" else Except.ok [n])
        ([1] ++ 0 :: [2])
      = generateSchedule
          (fun n => if n = 0 then Except.error "boom" else Except.ok [n]) [1]
        ++ generateSchedule
            (fun n => if n = 0 then Except.error "boom" else Except.ok [n]) [2] :=
  (c8_per_course_failure_isolated _ [1] [2] 0 "boom" rfl).1

/-- Claim C6.  The time parser accepts 4-digit HHMM strings (rendered as
HH:MM) and colon-separated strings with one or two hour digits, two
minute digits, an ignored optional seconds component and an optional
case-insensitive AM/PM suffix; 12-hour input converts to 24-hour with 12
AM becoming 00, 12 PM staying 12 and PM adding 12 to hours 1 through 11;
unrecognized shapes yield null.  In particular 1400 gives 14:00, 2:30 PM
gives 14:30, 12:00 AM gives 00:00 and garbage gives null. -/
theorem c6_parseTime_formats :
    convertTimeFormat "1400" = some "14:00"
    ∧ convertTimeFormat "2:30 PM" = some "14:30"
    ∧ convertTimeFormat "12:00 AM" = some "00:00"
    ∧ convertTimeFormat "garbage" = none
    ∧ convertTimeFormat "14:30:45" = some "14:30"
    ∧ convertTimeFormat "2:30:15 pm" = some "14:30"
    ∧ convertTimeFormat "" = none
    ∧ (∀ h < 24, ∀ m < 60,
        convertTimeFormat (pad2 h ++ pad2 m) = some (pad2 h ++ ":" ++ pad2 m))
    ∧ (∀ h, 1 ≤ h → h < 12 → ∀ m < 60,
        sanitizeTime (toString h ++ ":" ++ pad2 m ++ " PM")
            = some (pad2 (h + 12) ++ ":" ++ pad2 m)
          ∧ sanitizeTime (toString h ++ ":" ++ pad2 m ++ " am")
            = some (pad2 h ++ ":" ++ pad2 m))
    ∧ (∀ m < 60,
        sanitizeTime ("12:" ++ pad2 m ++ " AM") = some ("00:" ++ pad2 m)
          ∧ sanitizeTime ("12:" ++ pad2 m ++ " pm") = some ("12:" ++ pad2 m)) := by
  refine ⟨by decide, by decide, by decide, by decide, by decide, by decide, by decide,
    ?_, ?_, ?_⟩
  · set_option maxHeartbeats 4000000 in decide
  · set_option maxHeartbeats 4000000 in decide
  · set_option maxHeartbeats 4000000 in decide

/-- Claim C6, witnessed at hour 2 and minute 30: the bounded conversion
statements instantiate to the concrete conversions of 2:30 PM and
12:30 AM. -/
theorem c6_witness :
    sanitizeTime (toString 2 ++ ":" ++ pad2 30 ++ " PM")
        = some (pad2 (2 + 12) ++ ":" ++ pad2 30)
    ∧ sanitizeTime ("12:" ++ pad2 30 ++ " AM") = some ("00:" ++ pad2 30)
    ∧ convertTimeFormat (pad2 14 ++ pad2 0) = some (pad2 14 ++ ":" ++ pad2 0) := by
  refine ⟨?_, ?_, ?_⟩
  · exact (c6_parseTime_formats.2.2.2.2.2.2.2.2.1 2 (by decide) (by decide) 30 (by decide)).1
  · exact (c6_parseTime_formats.2.2.2.2.2.2.2.2.2 30 (by decide)).1
  · exact c6_parseTime_formats.2.2.2.2.2.2.2.1 14 (by decide) 0 (by decide)

theorem hasKey_iff {m : List (String × Sect)} {k : String} :
    hasKey m k = true ↔ k ∈ m.map Prod.fst := by
  rw [hasKey, List.any_eq_true]
  constructor
  · rintro ⟨p, hp, hpk⟩
    rw [beq_iff_eq] at hpk
    subst hpk
    exact List.mem_map_of_mem Prod.fst hp
  · intro hk
    rcases List.mem_map.mp hk with ⟨p, hp, rfl⟩
    exact ⟨p, hp, beq_self_eq_true _⟩

theorem pushMeeting_map_fst (m : List (String × Sect)) (k : String) (mt : Meeting) :
    (pushMeeting m k mt).map Prod.fst = m.map Prod.fst := by
  rw [pushMeeting, List.map_map]
  apply List.map_congr_left
  intro q _
  by_cases h : (q.1 == k) = true <;> simp [h, Function.comp]

theorem mem_pushMeeting {m : List (String × Sect)} {k : String} {mt : Meeting}
    {p : String × Sect} (hp : p ∈ pushMeeting m k mt) :
    ∃ q ∈ m,
      (((q.1 == k) = false ∧ p = q)
        ∨ ((q.1 == k) = true
            ∧ p = (q.1, { q.2 with schedule := q.2.schedule ++ [mt] }))) := by
  rw [pushMeeting] at hp
  rcases List.mem_map.mp hp with ⟨q, hq, rfl⟩
  refine ⟨q, hq, ?_⟩
  by_cases h : (q.1 == k) = true
  · right
    exact ⟨h, by simp [h]⟩
  · left
    exact ⟨by simpa using h, by simp [h]⟩

theorem meetingsOf_append_one (k : String) (rows : List RawRow) (r : RawRow) :
    meetingsOf k (rows ++ [r])
      = meetingsOf k rows
        ++ (if (sectionKey r == k && contributes r) = true then [mkMeeting r] else []) := by
  rw [meetingsOf, meetingsOf, List.filter_append, List.map_append]
  congr 1
  by_cases h : (sectionKey r == k && contributes r) = true <;>
    simp [List.filter_cons, h]

theorem meetingsOf_nil_of_no_key {k : String} {rows : List RawRow}
    (h : ∀ r ∈ rows, (sectionKey r == k) = false) : meetingsOf k rows = [] := by
  rw [meetingsOf]
  have hf : rows.filter (fun r => sectionKey r == k && contributes r) = [] := by
    rw [List.filter_eq_nil_iff]
    intro r hr
    simp [h r hr]
  rw [hf]
  rfl

theorem ensure_entry_inv {m : List (String × Sect)} {rows : List RawRow} {r : RawRow}
    (h : mapInv m rows) :
    (((if hasKey m (sectionKey r) then m
        else m ++ [(sectionKey r, initSect r)]).map Prod.fst).Nodup)
    ∧ (∀ p ∈ (if hasKey m (sectionKey r) then m
        else m ++ [(sectionKey r, initSect r)]),
        p.2.schedule = meetingsOf p.1 rows)
    ∧ (∀ k2, hasKey (if hasKey m (sectionKey r) then m
        else m ++ [(sectionKey r, initSect r)]) k2 = true
        ↔ ((∃ r2 ∈ rows, sectionKey r2 = k2) ∨ sectionKey r = k2)) := by
  obtain ⟨hnd, hsched, hkeys⟩ := h
  by_cases hhk : hasKey m (sectionKey r) = true
  · simp only [hhk, if_true]
    refine ⟨hnd, hsched, ?_⟩
    intro k2
    rw [hkeys k2]
    constructor
    · exact Or.inl
    · rintro (hx | he)
      · exact hx
      · obtain ⟨r3, hr3, he3⟩ := (hkeys _).mp hhk
        exact ⟨r3, hr3, he3.trans he⟩
  · have hfk : hasKey m (sectionKey r) = false := by simpa using hhk
    have hnew : ∀ r2 ∈ rows, (sectionKey r2 == sectionKey r) = false := by
      intro r2 hr2
      rw [beq_eq_false_iff_ne]
      intro heq
      have hcontra : hasKey m (sectionKey r) = true := (hkeys _).mpr ⟨r2, hr2, heq⟩
      rw [hcontra] at hfk
      cases hfk
    simp only [hfk, Bool.false_eq_true, if_false]
    refine ⟨?_, ?_, ?_⟩
    · rw [List.map_append]
      rw [List.nodup_append]
      refine ⟨hnd, by simp, ?_⟩
      intro a ha hb
      simp only [List.map_cons, List.map_nil, List.mem_singleton] at hb
      subst hb
      have : hasKey m (sectionKey r) = true := hasKey_iff.mpr ha
      rw [this] at hfk
      cases hfk
    · intro p hp
      rcases List.mem_append.mp hp with hp2 | hp2
      · exact hsched p hp2
      · rw [List.mem_singleton] at hp2
        subst hp2
        show (initSect r).schedule = meetingsOf (sectionKey r) rows
      
        rw [meetingsOf_nil_of_no_key fun r2 hr2 => hnew r2 hr2]
        rfl
    · intro k2
      rw [hasKey_iff, List.map_append]
      simp only [List.map_cons, List.map_nil, List.mem_append, List.mem_singleton]
      constructor
      · rintro (hx | he)
        · exact Or.inl ((hkeys k2).mp (hasKey_iff.mpr hx))
        · exact Or.inr he.symm
      · rintro (hx | he)
        · exact Or.inl (hasKey_iff.mp ((hkeys k2).mpr hx))
        · exact Or.inr he.symm

theorem processRow_inv {m : List (String × Sect)} {rows : List RawRow} {r : RawRow}
    (h : mapInv m rows) : mapInv (processRow m r) (rows ++ [r]) := by
  obtain ⟨hnd1, hsched1, hkeys1⟩ := ensure_entry_inv (r := r) h
  rw [processRow]
  set m1 := if hasKey m (sectionKey r) then m else m ++ [(sectionKey r, initSect r)] with hm1
  have hkeys2 : ∀ k2, hasKey m1 k2 = true ↔ ∃ r2 ∈ rows ++ [r], sectionKey r2 = k2 := by
    intro k2
    rw [hkeys1 k2]
    constructor
    · rintro (⟨r2, hr2, he⟩ | he)
      · exact ⟨r2, List.mem_append_left _ hr2, he⟩
      · exact ⟨r, List.mem_append_right _ (List.mem_singleton_self r), he⟩
    · rintro ⟨r2, hr2, he⟩
      rcases List.mem_append.mp hr2 with h2 | h2
      · exact Or.inl ⟨r2, h2, he⟩
      · rw [List.mem_singleton] at h2
        subst h2
        exact Or.inr he
  by_cases hcon : contributes r = true
  · simp only [hcon, if_true]
    refine ⟨?_, ?_, ?_⟩
    · rw [pushMeeting_map_fst]
      exact hnd1
    · intro p hp
      rcases mem_pushMeeting hp with ⟨q, hq, hcase⟩
      rcases hcase with ⟨hne, rfl⟩ | ⟨heq, rfl⟩
      · rw [meetingsOf_append_one]
        have hne2 : (sectionKey r == p.1) = false := by
          rw [beq_eq_false_iff_ne] at hne ⊢
          exact fun hx => hne hx.symm
        rw [hne2]
        simp only [Bool.false_and, Bool.false_eq_true, if_false, List.append_nil]
        exact hsched1 p hq
      · have hq1 : q.1 = sectionKey r := by rwa [beq_iff_eq] at heq
        show ({ q.2 with schedule := q.2.schedule ++ [mkMeeting r] } : Sect).schedule
            = meetingsOf q.1 (rows ++ [r])
        rw [meetingsOf_append_one]
        rw [hq1]
        simp only [beq_self_eq_true, hcon, Bool.and_self, if_true]
        rw [← hq1, hsched1 q hq, hq1]
    · intro k2
      rw [hasKey_iff, pushMeeting_map_fst, ← hasKey_iff]
      exact hkeys2 k2
  · have hconf : contributes r = false := by simpa using hcon
    simp only [hconf, Bool.false_eq_true, if_false]
    refine ⟨hnd1, ?_, hkeys2⟩
    intro p hp
    rw [meetingsOf_append_one]
    simp only [hconf, Bool.and_false, Bool.false_eq_true, if_false, List.append_nil]
    exact hsched1 p hp

theorem foldl_processRow_inv (rows : List RawRow) :
    mapInv (rows.foldl processRow []) rows := by
  induction rows using List.reverseRecOn with
  | nil =>
    refine ⟨List.nodup_nil, ?_, ?_⟩
    · intro p hp
      cases hp
    · intro k
      simp [hasKey]
  | append_singleton l a ih =>
    rw [List.foldl_append, List.foldl_cons, List.foldl_nil]
    exact processRow_inv ih

/-- Claim C4.  The schedule-feed normalizer satisfies: (1) raw rows
sharing the same section and component-code key merge into one map entry
(keys in the sections map are pairwise distinct) whose schedule
accumulates, in row order, exactly the meetings contributed to that key;
(2) every Section in the output has a non-empty schedule; (3) every
meeting of every output Section comes from a row whose extracted day set
is non-empty and whose start and end times both parse. -/
theorem c4_normalizer_invariants :
    ∀ rows : List RawRow,
      (((rows.foldl processRow []).map Prod.fst).Nodup)
      ∧ (∀ p ∈ rows.foldl processRow [], p.2.schedule = meetingsOf p.1 rows)
      ∧ (∀ s ∈ processScheduleResponse rows, s.schedule ≠ [])
      ∧ (∀ s ∈ processScheduleResponse rows, ∀ mt ∈ s.schedule,
          ∃ r ∈ rows, mt = mkMeeting r ∧ contributes r = true)
      ∧ (∀ s ∈ processScheduleResponse rows, ∀ mt ∈ s.schedule,
          mt.days ≠ [] ∧ mt.startTime.isSome ∧ mt.endTime.isSome) := by
  intro rows
  obtain ⟨hnd, hsched, _⟩ := foldl_processRow_inv rows
  have horigin : ∀ s ∈ processScheduleResponse rows, ∀ mt ∈ s.schedule,
      ∃ r ∈ rows, mt = mkMeeting r ∧ contributes r = true := by
    intro s hs mt hmt
    rw [processScheduleResponse] at hs
    have hs2 := (List.mem_filter.mp hs).1
    rcases List.mem_map.mp hs2 with ⟨p, hp, rfl⟩
    rw [hsched p hp, meetingsOf] at hmt
    rcases List.mem_map.mp hmt with ⟨r, hr, rfl⟩
    have hrf := List.mem_filter.mp hr
    have hb := hrf.2
    rw [Bool.and_eq_true] at hb
    exact ⟨r, hrf.1, rfl, hb.2⟩
  refine ⟨hnd, hsched, ?_, horigin, ?_⟩
  · intro s hs
    have hne := (List.mem_filter.mp hs).2
    intro hempty
    rw [hempty] at hne
    simp at hne
  · intro s hs mt hmt
    obtain ⟨r, _, rfl, hcon⟩ := horigin s hs mt hmt
    rw [contributes, Bool.and_eq_true, Bool.and_eq_true, Bool.and_eq_true] at hcon
    obtain ⟨⟨⟨_, hdays⟩, hst⟩, het⟩ := hcon
    refine ⟨?_, hst, het⟩
    have hde : ((extractDaysFromSchedule r).isEmpty) = false := by
      cases hx : (extractDaysFromSchedule r).isEmpty
      · rfl
      · rw [hx] at hdays
        cases hdays
    intro hnil
    show False
    have hmk : (mkMeeting r).days = extractDaysFromSchedule r := rfl
    rw [hmk] at hnil
    rw [hnil] at hde
    simp at hde

/-- Claim C4, witnessed on two raw rows sharing the key A-LEC: the merged
section accumulates both meetings, hence has a non-empty schedule. -/
theorem c4_witness : c4sect.schedule ≠ [] :=
  (c4_normalizer_invariants [c4row1, c4row2]).2.2.1 c4sect (by decide)
